import Mathlib

/- A shallow embedding of the Campaign contract (Solidity ^0.8, the core ledger
   of this repository).  Addresses are modelled as natural numbers (0 is the
   zero address) and uint256 values as unbounded naturals (checked arithmetic
   in Solidity ^0.8 reverts on overflow, so no wrap-around behaviour exists to
   model).  The three external effects - the ERC20 pull (safeTransferFrom),
   the ERC20 push (safeTransfer) and the native-currency call - are modelled
   as Boolean outcome oracles supplied with each operation, since the ledger
   only observes whether they succeed.  Every contract function is first given
   a "raw" semantics in which a failing require returns the storage as written
   so far together with the error; the transactional semantics `exec` then
   models the EVM revert by restoring the pre-call state whenever the raw body
   ends in an error. -/

namespace CampaignSpec

/-- The lifecycle phases, from `enum State` in the contract. -/
inductive CState where
  | Graduating
  | Live
  | Rescue
  | Ended
deriving DecidableEq

/-- The error taxonomy; each constructor corresponds to one require message of
the contract. -/
inductive Err where
  | Unauthorized
  | IllegalStateForOperation
  | InvalidArgument
  | FeeForwardingFailed
  | AssetTransferFailed
  | LengthMismatch
  | AllocationExceedsDeposits
  | NoAllocation
  | AlreadyClaimed
  | NoResidual
  | NothingToWithdraw
deriving DecidableEq

/-- The contract storage: owner, feeRecipient, currentState, totalDeposits,
the deposits / allocations / hasClaimed mappings and the depositors array.
`title` and `tokenAddress` are immutable and play no role in the ledger
logic, so they are omitted. -/
structure Campaign where
  owner : Nat
  feeRecipient : Nat
  currentState : CState
  totalDeposits : Nat
  deposits : Nat → Nat
  allocations : Nat → Nat
  hasClaimed : Nat → Bool
  depositors : List Nat

/-- `uint256 public constant DEPOSIT_FEE = 0.001 ether` in wei. -/
def DEPOSIT_FEE : Nat := 1000000000000000

/-- The constructor: state starts at Graduating, all mappings empty.  The
require on a nonzero fee recipient is imposed at the reachability level. -/
def initCampaign (owner feeRecipient : Nat) : Campaign :=
  { owner := owner
    feeRecipient := feeRecipient
    currentState := CState.Graduating
    totalDeposits := 0
    deposits := fun _ => 0
    allocations := fun _ => 0
    hasClaimed := fun _ => false
    depositors := [] }

/-- Raw body of `deposit(uint256 amount)`.  `sender` is msg.sender, `msgValue`
is msg.value, `feeOk` is the outcome of the native call forwarding the fee and
`pullOk` the outcome of safeTransferFrom.  Note that the source checks the
state, the fee, and the two transfers, but never requires `amount > 0`, and
pushes the sender onto the depositors array whenever the recorded balance is
zero at call time. -/
def deposit (sender amount msgValue : Nat) (feeOk pullOk : Bool) (s : Campaign) :
    Campaign × Option Err :=
  if s.currentState ≠ CState.Graduating ∧ s.currentState ≠ CState.Live then
    (s, some Err.IllegalStateForOperation)
  else if msgValue ≠ DEPOSIT_FEE then
    (s, some Err.InvalidArgument)
  else if feeOk = false then
    (s, some Err.FeeForwardingFailed)
  else if pullOk = false then
    (s, some Err.AssetTransferFailed)
  else
    ({ s with
        depositors :=
          if s.deposits sender = 0 then s.depositors ++ [sender] else s.depositors
        deposits := fun a => if a = sender then s.deposits a + amount else s.deposits a
        totalDeposits := s.totalDeposits + amount }, none)

/-- Raw body of `changeStateToLive()`. -/
def changeStateToLive (sender : Nat) (s : Campaign) : Campaign × Option Err :=
  if sender ≠ s.owner then (s, some Err.Unauthorized)
  else if s.currentState ≠ CState.Graduating then (s, some Err.IllegalStateForOperation)
  else ({ s with currentState := CState.Live }, none)

/-- The refund loop of `changeStateToRescue`: walks the depositors array, and
for every entry with a nonzero balance zeroes the balance and then pushes the
tokens back (`ok d` is the outcome of that safeTransfer; a failing transfer
aborts the loop with the storage as written so far).  Returns the final
deposits mapping, the total amount refunded, and the error if any. -/
def rescueLoop (ok : Nat → Bool) :
    List Nat → (Nat → Nat) → Nat → ((Nat → Nat) × Nat × Option Err)
  | [], dep, refunded => (dep, refunded, none)
  | d :: rest, dep, refunded =>
    let amt := dep d
    if amt = 0 then rescueLoop ok rest dep refunded
    else
      let dep' := fun a => if a = d then 0 else dep a
      if ok d then rescueLoop ok rest dep' (refunded + amt)
      else (dep', refunded, some Err.AssetTransferFailed)

/-- Raw body of `changeStateToRescue()`. -/
def changeStateToRescue (sender : Nat) (ok : Nat → Bool) (s : Campaign) :
    Campaign × Option Err :=
  if sender ≠ s.owner then (s, some Err.Unauthorized)
  else if s.currentState ≠ CState.Graduating then (s, some Err.IllegalStateForOperation)
  else
    match rescueLoop ok s.depositors s.deposits 0 with
    | (dep, _, some e) => ({ s with deposits := dep }, some e)
    | (dep, _, none) =>
        ({ s with
            deposits := dep
            totalDeposits := 0
            currentState := CState.Rescue }, none)

/-- The total of the refund transfers issued by a successful
`changeStateToRescue` run with transfer outcomes `ok`. -/
def rescueRefundTotal (s : Campaign) (ok : Nat → Bool) : Nat :=
  (rescueLoop ok s.depositors s.deposits 0).2.1

/-- Raw body of `changeStateToEnded()`. -/
def changeStateToEnded (sender : Nat) (s : Campaign) : Campaign × Option Err :=
  if sender ≠ s.owner then (s, some Err.Unauthorized)
  else if s.currentState ≠ CState.Live then (s, some Err.IllegalStateForOperation)
  else ({ s with currentState := CState.Ended }, none)

/-- The write loop of `setAllocations`: overwrites the allocation of each
listed user in order (so a repeated user keeps the last value) while the
running total accumulates every entry of the amounts array. -/
def setAllocLoop :
    List Nat → List Nat → (Nat → Nat) → Nat → ((Nat → Nat) × Nat)
  | [], _, alloc, tot => (alloc, tot)
  | _ :: _, [], alloc, tot => (alloc, tot)
  | u :: us, a :: amts, alloc, tot =>
      setAllocLoop us amts (fun x => if x = u then a else alloc x) (tot + a)

/-- Raw body of `setAllocations(address[] users, uint256[] amounts)`.  The
final require compares the total of the amounts written by THIS call against
totalDeposits; allocations committed by earlier calls are not revisited.  On
failure the raw semantics exposes the partially written mapping (the loop runs
before the require); `exec` rolls it back. -/
def setAllocations (sender : Nat) (users amounts : List Nat) (s : Campaign) :
    Campaign × Option Err :=
  if sender ≠ s.owner then (s, some Err.Unauthorized)
  else if s.currentState ≠ CState.Ended then (s, some Err.IllegalStateForOperation)
  else if users.length ≠ amounts.length then (s, some Err.LengthMismatch)
  else
    match setAllocLoop users amounts s.allocations 0 with
    | (alloc, tot) =>
      if tot ≤ s.totalDeposits then ({ s with allocations := alloc }, none)
      else ({ s with allocations := alloc }, some Err.AllocationExceedsDeposits)

/-- Raw body of `claimTokens()`.  The claimed flag is set before the outgoing
safeTransfer (`transferOk` is its outcome); a failing transfer leaves the raw
state with the flag set, undone by the transactional rollback. -/
def claimTokens (sender : Nat) (transferOk : Bool) (s : Campaign) :
    Campaign × Option Err :=
  if s.currentState ≠ CState.Ended then (s, some Err.IllegalStateForOperation)
  else if s.allocations sender = 0 then (s, some Err.NoAllocation)
  else if s.hasClaimed sender then (s, some Err.AlreadyClaimed)
  else
    let s' := { s with hasClaimed := fun a => if a = sender then true else s.hasClaimed a }
    if transferOk then (s', none) else (s', some Err.AssetTransferFailed)

/-- The `totalAllocated` computed by `rescueRemainingTokens`: the loop sums
`allocations[depositors[i]]` over the depositors ARRAY, so entries outside the
array are never counted and a duplicated array entry is counted twice. -/
def totalAllocatedOverDepositors (s : Campaign) : Nat :=
  (s.depositors.map s.allocations).sum

/-- The `remaining` amount that `rescueRemainingTokens` transfers to the owner
when it succeeds, given the contract's token balance. -/
def rescueSweepAmount (s : Campaign) (contractBalance : Nat) : Nat :=
  contractBalance - totalAllocatedOverDepositors s

/-- Raw body of `rescueRemainingTokens()`.  `contractBalance` is the value
returned by token.balanceOf(address(this)) and `transferOk` the outcome of the
sweep transfer.  Both requires of the source are kept (the second is
redundant given the first). -/
def rescueRemainingTokens (sender contractBalance : Nat) (transferOk : Bool)
    (s : Campaign) : Campaign × Option Err :=
  if sender ≠ s.owner then (s, some Err.Unauthorized)
  else if s.currentState ≠ CState.Ended then (s, some Err.IllegalStateForOperation)
  else if ¬ totalAllocatedOverDepositors s < contractBalance then (s, some Err.NoResidual)
  else if contractBalance - totalAllocatedOverDepositors s = 0 then (s, some Err.NoResidual)
  else if transferOk then (s, none)
  else (s, some Err.AssetTransferFailed)

/-- Raw body of `updateFeeRecipient(address)`. -/
def updateFeeRecipient (sender newRecipient : Nat) (s : Campaign) :
    Campaign × Option Err :=
  if sender ≠ s.owner then (s, some Err.Unauthorized)
  else if newRecipient = 0 then (s, some Err.InvalidArgument)
  else ({ s with feeRecipient := newRecipient }, none)

/-- Raw body of `withdrawEther()`.  `ethBalance` is address(this).balance and
`sendOk` the outcome of the native call to the owner. -/
def withdrawEther (sender ethBalance : Nat) (sendOk : Bool) (s : Campaign) :
    Campaign × Option Err :=
  if sender ≠ s.owner then (s, some Err.Unauthorized)
  else if ethBalance = 0 then (s, some Err.NothingToWithdraw)
  else if sendOk then (s, none)
  else (s, some Err.AssetTransferFailed)

/-- One external call into the contract, bundling the caller identity, the
arguments and the outcomes of the external transfers the call performs. -/
inductive Op where
  | deposit (sender amount msgValue : Nat) (feeOk pullOk : Bool)
  | changeStateToLive (sender : Nat)
  | changeStateToRescue (sender : Nat) (ok : Nat → Bool)
  | changeStateToEnded (sender : Nat)
  | setAllocations (sender : Nat) (users amounts : List Nat)
  | claimTokens (sender : Nat) (transferOk : Bool)
  | rescueRemainingTokens (sender contractBalance : Nat) (transferOk : Bool)
  | updateFeeRecipient (sender newRecipient : Nat)
  | withdrawEther (sender ethBalance : Nat) (sendOk : Bool)

/-- Raw (pre-revert) semantics of one call. -/
def raw : Op → Campaign → Campaign × Option Err
  | Op.deposit sender amount msgValue feeOk pullOk => deposit sender amount msgValue feeOk pullOk
  | Op.changeStateToLive sender => changeStateToLive sender
  | Op.changeStateToRescue sender ok => changeStateToRescue sender ok
  | Op.changeStateToEnded sender => changeStateToEnded sender
  | Op.setAllocations sender users amounts => setAllocations sender users amounts
  | Op.claimTokens sender transferOk => claimTokens sender transferOk
  | Op.rescueRemainingTokens sender bal transferOk => rescueRemainingTokens sender bal transferOk
  | Op.updateFeeRecipient sender newRecipient => updateFeeRecipient sender newRecipient
  | Op.withdrawEther sender bal sendOk => withdrawEther sender bal sendOk

/-- Transactional semantics: the EVM reverts all storage writes of a call that
ends in an error, so the pre-call state is restored. -/
def exec (op : Op) (s : Campaign) : Campaign × Option Err :=
  match raw op s with
  | (s', none) => (s', none)
  | (_, some e) => (s, some e)

/-- States reachable from a freshly constructed campaign by calls satisfying
`P` (the constructor requires a nonzero fee recipient). -/
inductive ReachableFrom (P : Op → Prop) : Campaign → Prop where
  | init (owner feeRecipient : Nat) (h : feeRecipient ≠ 0) :
      ReachableFrom P (initCampaign owner feeRecipient)
  | step {s : Campaign} (op : Op) (hs : ReachableFrom P s) (hop : P op) :
      ReachableFrom P (exec op s).1

/-- States reachable by arbitrary calls. -/
def Reachable : Campaign → Prop :=
  ReachableFrom (fun _ => True)

/-- The legal transition relation of the lifecycle: a call either leaves the
phase unchanged or moves along one of the three edges Graduating to Live,
Graduating to Rescue, Live to Ended. -/
def StateTransOK (a b : CState) : Prop :=
  a = b ∨ (a = CState.Graduating ∧ b = CState.Live) ∨
    (a = CState.Graduating ∧ b = CState.Rescue) ∨
    (a = CState.Live ∧ b = CState.Ended)

/-- The deposit-ledger invariant: every identity with a nonzero balance occurs
in the depositors array, and totalDeposits is the sum of the balances of the
distinct listed identities. -/
def DepositInv (s : Campaign) : Prop :=
  (∀ a, s.deposits a ≠ 0 → a ∈ s.depositors) ∧
  s.totalDeposits = ∑ a ∈ s.depositors.toFinset, s.deposits a

/-- The behaviour of claimTokens on a campaign in the Ended phase, checked in
the source order: NoAllocation before AlreadyClaimed, the claimed flag set on
success, and a repeated call after a success rejected with AlreadyClaimed and
no state change. -/
def ClaimTokensSpec (s : Campaign) (sender : Nat) (tOk : Bool) : Prop :=
  (s.allocations sender = 0 →
    exec (Op.claimTokens sender tOk) s = (s, some Err.NoAllocation)) ∧
  (s.allocations sender ≠ 0 → s.hasClaimed sender = true →
    exec (Op.claimTokens sender tOk) s = (s, some Err.AlreadyClaimed)) ∧
  (s.allocations sender ≠ 0 → s.hasClaimed sender = false →
    (exec (Op.claimTokens sender true) s).2 = none ∧
    (exec (Op.claimTokens sender true) s).1 =
      { s with hasClaimed := fun a => if a = sender then true else s.hasClaimed a } ∧
    (exec (Op.claimTokens sender true) s).1.hasClaimed sender = true ∧
    exec (Op.claimTokens sender tOk) (exec (Op.claimTokens sender true) s).1 =
      ((exec (Op.claimTokens sender true) s).1, some Err.AlreadyClaimed))

/- Concrete executions used as evaluation inputs: a fresh campaign with
owner 1 and fee recipient 2; depositor 3 puts in 100 tokens; the owner then
moves the campaign through Live to Ended and sets allocations in two calls. -/

def cState0 : Campaign := initCampaign 1 2

def cDep100 : Campaign := (exec (Op.deposit 3 100 DEPOSIT_FEE true true) cState0).1

def cStateEnded : Campaign :=
  (exec (Op.changeStateToEnded 1) ((exec (Op.changeStateToLive 1) cDep100).1)).1

def allocCall1 : Campaign × Option Err := exec (Op.setAllocations 1 [4] [100]) cStateEnded

def allocCall2 : Campaign × Option Err := exec (Op.setAllocations 1 [5] [100]) allocCall1.1

def zeroDep1 : Campaign := (exec (Op.deposit 3 0 DEPOSIT_FEE true true) cState0).1

def zeroDep2 : Campaign := (exec (Op.deposit 3 5 DEPOSIT_FEE true true) zeroDep1).1

/- Success-characterization lemmas: what a raw body that returned no error
must have checked and written. -/

theorem exec_fst_cases (op : Op) (s : Campaign) :
    (exec op s).1 = s ∨ raw op s = ((exec op s).1, none) := by
  unfold exec
  rcases h : raw op s with ⟨s', e⟩
  cases e
  · right; rfl
  · left; rfl

theorem deposit_success {sender amount msgValue : Nat} {feeOk pullOk : Bool}
    {s s' : Campaign} (h : deposit sender amount msgValue feeOk pullOk s = (s', none)) :
    (s.currentState = CState.Graduating ∨ s.currentState = CState.Live) ∧
    msgValue = DEPOSIT_FEE ∧ feeOk = true ∧ pullOk = true ∧
    s' = { s with
        depositors :=
          if s.deposits sender = 0 then s.depositors ++ [sender] else s.depositors
        deposits := fun a => if a = sender then s.deposits a + amount else s.deposits a
        totalDeposits := s.totalDeposits + amount } := by
  unfold deposit at h
  split_ifs at h with h1 h2 h3 h4 h5 <;> simp only [Prod.mk.injEq] at h
  · exact absurd h.2 (by simp)
  · exact absurd h.2 (by simp)
  · exact absurd h.2 (by simp)
  · exact absurd h.2 (by simp)
  · refine ⟨?_, not_ne_iff.mp h2, by simpa using h3, by simpa using h4, ?_⟩
    · rcases not_and_or.mp h1 with hg | hl
      · exact Or.inl (not_ne_iff.mp hg)
      · exact Or.inr (not_ne_iff.mp hl)
    · rw [if_pos h5]; exact h.1.symm
  · refine ⟨?_, not_ne_iff.mp h2, by simpa using h3, by simpa using h4, ?_⟩
    · rcases not_and_or.mp h1 with hg | hl
      · exact Or.inl (not_ne_iff.mp hg)
      · exact Or.inr (not_ne_iff.mp hl)
    · rw [if_neg h5]; exact h.1.symm

theorem changeStateToLive_success {sender : Nat} {s s' : Campaign}
    (h : changeStateToLive sender s = (s', none)) :
    sender = s.owner ∧ s.currentState = CState.Graduating ∧
    s' = { s with currentState := CState.Live } := by
  unfold changeStateToLive at h
  split_ifs at h with h1 h2 <;> simp only [Prod.mk.injEq] at h
  · exact absurd h.2 (by simp)
  · exact absurd h.2 (by simp)
  · exact ⟨not_ne_iff.mp h1, not_ne_iff.mp h2, h.1.symm⟩

theorem changeStateToEnded_success {sender : Nat} {s s' : Campaign}
    (h : changeStateToEnded sender s = (s', none)) :
    sender = s.owner ∧ s.currentState = CState.Live ∧
    s' = { s with currentState := CState.Ended } := by
  unfold changeStateToEnded at h
  split_ifs at h with h1 h2 <;> simp only [Prod.mk.injEq] at h
  · exact absurd h.2 (by simp)
  · exact absurd h.2 (by simp)
  · exact ⟨not_ne_iff.mp h1, not_ne_iff.mp h2, h.1.symm⟩

theorem changeStateToRescue_success {sender : Nat} {ok : Nat → Bool} {s s' : Campaign}
    (h : changeStateToRescue sender ok s = (s', none)) :
    sender = s.owner ∧ s.currentState = CState.Graduating ∧
    ∃ dep refunded, rescueLoop ok s.depositors s.deposits 0 = (dep, refunded, none) ∧
      s' = { s with
          deposits := dep
          totalDeposits := 0
          currentState := CState.Rescue } := by
  unfold changeStateToRescue at h
  split_ifs at h with h1 h2
  · exact absurd (congrArg Prod.snd h) (by simp)
  · exact absurd (congrArg Prod.snd h) (by simp)
  · refine ⟨not_ne_iff.mp h1, not_ne_iff.mp h2, ?_⟩
    rcases hr : rescueLoop ok s.depositors s.deposits 0 with ⟨dep, refunded, e⟩
    rw [hr] at h
    cases e <;> simp only [Prod.mk.injEq] at h
    · exact ⟨dep, refunded, rfl, h.1.symm⟩
    · exact absurd h.2 (by simp)

theorem setAllocations_success {sender : Nat} {users amounts : List Nat} {s s' : Campaign}
    (h : setAllocations sender users amounts s = (s', none)) :
    sender = s.owner ∧ s.currentState = CState.Ended ∧
    users.length = amounts.length ∧
    (setAllocLoop users amounts s.allocations 0).2 ≤ s.totalDeposits ∧
    s' = { s with allocations := (setAllocLoop users amounts s.allocations 0).1 } := by
  unfold setAllocations at h
  split_ifs at h with h1 h2 h3
  · exact absurd (congrArg Prod.snd h) (by simp)
  · exact absurd (congrArg Prod.snd h) (by simp)
  · exact absurd (congrArg Prod.snd h) (by simp)
  · rcases hl : setAllocLoop users amounts s.allocations 0 with ⟨alloc, tot⟩
    rw [hl] at h
    dsimp only at h
    split_ifs at h with h4 <;> simp only [Prod.mk.injEq] at h
    · exact ⟨not_ne_iff.mp h1, not_ne_iff.mp h2, not_ne_iff.mp h3, h4, h.1.symm⟩
    · exact absurd h.2 (by simp)

theorem claimTokens_success {sender : Nat} {transferOk : Bool} {s s' : Campaign}
    (h : claimTokens sender transferOk s = (s', none)) :
    s.currentState = CState.Ended ∧ s.allocations sender ≠ 0 ∧
    s.hasClaimed sender = false ∧ transferOk = true ∧
    s' = { s with hasClaimed := fun a => if a = sender then true else s.hasClaimed a } := by
  unfold claimTokens at h
  split_ifs at h with h1 h2 h3 h4 <;> simp only [Prod.mk.injEq] at h
  · exact absurd h.2 (by simp)
  · exact absurd h.2 (by simp)
  · exact absurd h.2 (by simp)
  · exact ⟨not_ne_iff.mp h1, h2, by simpa using h3, h4, h.1.symm⟩
  · exact absurd h.2 (by simp)

theorem rescueRemainingTokens_success {sender contractBalance : Nat} {transferOk : Bool}
    {s s' : Campaign}
    (h : rescueRemainingTokens sender contractBalance transferOk s = (s', none)) :
    sender = s.owner ∧ s.currentState = CState.Ended ∧
    totalAllocatedOverDepositors s < contractBalance ∧ transferOk = true ∧ s' = s := by
  unfold rescueRemainingTokens at h
  split_ifs at h with h1 h2 h3 h4 h5 <;> simp only [Prod.mk.injEq] at h <;>
    first
      | exact ⟨not_ne_iff.mp h1, not_ne_iff.mp h2, h3, h5, h.1.symm⟩
      | exact absurd h.2 (by simp)

theorem updateFeeRecipient_success {sender newRecipient : Nat} {s s' : Campaign}
    (h : updateFeeRecipient sender newRecipient s = (s', none)) :
    sender = s.owner ∧ newRecipient ≠ 0 ∧
    s' = { s with feeRecipient := newRecipient } := by
  unfold updateFeeRecipient at h
  split_ifs at h with h1 h2 <;> simp only [Prod.mk.injEq] at h
  · exact absurd h.2 (by simp)
  · exact absurd h.2 (by simp)
  · exact ⟨not_ne_iff.mp h1, h2, h.1.symm⟩

theorem withdrawEther_success {sender ethBalance : Nat} {sendOk : Bool} {s s' : Campaign}
    (h : withdrawEther sender ethBalance sendOk s = (s', none)) :
    sender = s.owner ∧ ethBalance ≠ 0 ∧ s' = s := by
  unfold withdrawEther at h
  split_ifs at h with h1 h2 h3 <;> simp only [Prod.mk.injEq] at h
  · exact absurd h.2 (by simp)
  · exact absurd h.2 (by simp)
  · exact ⟨not_ne_iff.mp h1, h2, h.1.symm⟩
  · exact absurd h.2 (by simp)

/- Finite-sum helper lemmas. -/

theorem sum_update_add {t : Finset Nat} {f : Nat → Nat} {x amt : Nat} (hx : x ∈ t) :
    ∑ a ∈ t, (if a = x then f a + amt else f a) = (∑ a ∈ t, f a) + amt := by
  have hsplit : ∀ a ∈ t,
      (if a = x then f a + amt else f a) = f a + (if a = x then amt else 0) := by
    intro a _
    split_ifs <;> simp
  rw [Finset.sum_congr rfl hsplit, Finset.sum_add_distrib,
    Finset.sum_ite_eq' t x (fun _ => amt), if_pos hx]

theorem sum_update_zero {t : Finset Nat} {f : Nat → Nat} {x : Nat} :
    ∑ a ∈ t, (if a = x then 0 else f a) = ∑ a ∈ t.erase x, f a := by
  rw [← Finset.sum_erase t (f := fun a => if a = x then 0 else f a) (a := x) (by simp)]
  exact Finset.sum_congr rfl fun a ha => if_neg (Finset.ne_of_mem_erase ha)

theorem sum_insert_head {t : Finset Nat} {f : Nat → Nat} {x : Nat} :
    ∑ a ∈ insert x t, f a = f x + ∑ a ∈ t.erase x, f a := by
  by_cases hx : x ∈ t
  · rw [Finset.insert_eq_self.mpr hx, ← Finset.add_sum_erase t f hx]
  · rw [Finset.sum_insert hx, Finset.erase_eq_of_not_mem hx]

theorem sum_eq_of_support_subset {f : Nat → Nat} {t u : Finset Nat}
    (ht : ∀ a, f a ≠ 0 → a ∈ t) (hu : ∀ a, f a ≠ 0 → a ∈ u) :
    ∑ a ∈ t, f a = ∑ a ∈ u, f a := by
  have h1 : ∑ a ∈ t ∩ u, f a = ∑ a ∈ t, f a :=
    Finset.sum_subset Finset.inter_subset_left (by
      intro x hx hnx
      by_contra hfx
      exact hnx (Finset.mem_inter.mpr ⟨hx, hu x hfx⟩))
  have h2 : ∑ a ∈ t ∩ u, f a = ∑ a ∈ u, f a :=
    Finset.sum_subset Finset.inter_subset_right (by
      intro x hx hnx
      by_contra hfx
      exact hnx (Finset.mem_inter.mpr ⟨ht x hfx, hx⟩))
  rw [← h1, h2]

/- The refund loop: a run that completes without a transfer failure zeroes
exactly the listed balances and refunds their total (each distinct identity
once; a duplicated array entry finds a zero balance the second time). -/

theorem rescueLoop_complete (ok : Nat → Bool) :
    ∀ (l : List Nat) (dep : Nat → Nat) (r : Nat) (dep' : Nat → Nat) (r' : Nat),
      rescueLoop ok l dep r = (dep', r', none) →
      (∀ a, dep' a = if a ∈ l then 0 else dep a) ∧
      r' = r + ∑ a ∈ l.toFinset, dep a := by
  intro l
  induction l with
  | nil =>
    intro dep r dep' r' h
    injection h with h1 h2
    injection h2 with h2 _
    subst h1; subst h2
    exact ⟨fun a => by simp, by simp⟩
  | cons d rest ih =>
    intro dep r dep' r' h
    unfold rescueLoop at h
    by_cases hd : dep d = 0
    · rw [if_pos hd] at h
      obtain ⟨ha, hr⟩ := ih dep r dep' r' h
      constructor
      · intro a
        rw [ha a]
        by_cases har : a ∈ rest
        · rw [if_pos har, if_pos (List.mem_cons_of_mem d har)]
        · rw [if_neg har]
          by_cases had : a = d
          · subst had; rw [if_pos (List.mem_cons_self _ _), hd]
          · rw [if_neg (by simp [had, har])]
      · rw [hr, List.toFinset_cons, sum_insert_head, hd,
          Finset.sum_erase _ hd, Nat.zero_add]
    · rw [if_neg hd] at h
      dsimp only at h
      by_cases hok : ok d = true
      · rw [if_pos hok] at h
        obtain ⟨ha, hr⟩ := ih _ _ dep' r' h
        constructor
        · intro a
          rw [ha a]
          by_cases har : a ∈ rest
          · rw [if_pos har, if_pos (List.mem_cons_of_mem d har)]
          · rw [if_neg har]
            by_cases had : a = d
            · subst had
              rw [if_pos rfl, if_pos (List.mem_cons_self _ _)]
            · rw [if_neg had, if_neg (by simp [had, har])]
        · rw [hr, sum_update_zero, List.toFinset_cons, sum_insert_head]
          omega
      · rw [if_neg hok] at h
        injection h with _ h2
        injection h2 with _ h3
        exact absurd h3 (by simp)

theorem rescueLoop_noError :
    ∀ (l : List Nat) (dep : Nat → Nat) (r : Nat),
      (rescueLoop (fun _ => true) l dep r).2.2 = none := by
  intro l
  induction l with
  | nil => intro dep r; rfl
  | cons d rest ih =>
    intro dep r
    unfold rescueLoop
    by_cases hd : dep d = 0
    · rw [if_pos hd]; exact ih dep r
    · rw [if_neg hd]
      dsimp only
      rw [if_pos rfl]
      exact ih _ _

/- Preservation of the deposit-ledger invariant. -/

theorem depositInv_congr {s s' : Campaign} (hd : s'.deposits = s.deposits)
    (ht : s'.totalDeposits = s.totalDeposits) (hl : s'.depositors = s.depositors)
    (h : DepositInv s) : DepositInv s' := by
  obtain ⟨h1, h2⟩ := h
  constructor
  · intro a ha
    rw [hd] at ha
    rw [hl]
    exact h1 a ha
  · rw [hd, ht, hl]
    exact h2

theorem depositInv_init (owner feeRecipient : Nat) :
    DepositInv (initCampaign owner feeRecipient) :=
  ⟨fun a ha => absurd rfl ha, by simp [initCampaign]⟩

theorem depositInv_deposit {sender amount msgValue : Nat} {feeOk pullOk : Bool}
    {s s' : Campaign} (hsucc : deposit sender amount msgValue feeOk pullOk s = (s', none))
    (h : DepositInv s) : DepositInv s' := by
  obtain ⟨hmem, hsum⟩ := h
  obtain ⟨-, -, -, -, rfl⟩ := deposit_success hsucc
  by_cases hz : s.deposits sender = 0
  · constructor
    · intro a ha
      dsimp only at ha ⊢
      rw [if_pos hz]
      by_cases has : a = sender
      · subst has
        exact List.mem_append_right _ (List.mem_singleton_self a)
      · rw [if_neg has] at ha
        exact List.mem_append_left _ (hmem a ha)
    · dsimp only
      rw [if_pos hz, List.toFinset_append]
      have hu : s.depositors.toFinset ∪ ([sender].toFinset) =
          insert sender s.depositors.toFinset := by
        ext a
        simp [or_comm]
      rw [hu, sum_insert_head]
      have he : ∑ a ∈ s.depositors.toFinset.erase sender,
          (if a = sender then s.deposits a + amount else s.deposits a) =
          ∑ a ∈ s.depositors.toFinset.erase sender, s.deposits a :=
        Finset.sum_congr rfl fun a ha => if_neg (Finset.ne_of_mem_erase ha)
      rw [he, if_pos rfl, hz, Finset.sum_erase _ hz, ← hsum]
      omega
  · have hsmem : sender ∈ s.depositors.toFinset := List.mem_toFinset.mpr (hmem sender hz)
    constructor
    · intro a ha
      dsimp only at ha ⊢
      rw [if_neg hz]
      by_cases has : a = sender
      · subst has
        exact hmem a hz
      · rw [if_neg has] at ha
        exact hmem a ha
    · dsimp only
      rw [if_neg hz, sum_update_add hsmem, ← hsum]

theorem depositInv_rescue {sender : Nat} {ok : Nat → Bool} {s s' : Campaign}
    (hsucc : changeStateToRescue sender ok s = (s', none)) (h : DepositInv s) :
    DepositInv s' := by
  obtain ⟨hmem, -⟩ := h
  obtain ⟨-, -, dep, refunded, hloop, rfl⟩ := changeStateToRescue_success hsucc
  have hdep : ∀ a, dep a = 0 := by
    intro a
    have hspec := (rescueLoop_complete ok s.depositors s.deposits 0 dep refunded hloop).1 a
    by_cases hl : a ∈ s.depositors
    · rw [hspec, if_pos hl]
    · rw [hspec, if_neg hl]
      by_contra hne
      exact hl (hmem a hne)
  constructor
  · intro a ha
    exact absurd (hdep a) ha
  · dsimp only
    rw [Finset.sum_congr rfl fun a _ => hdep a]
    simp

theorem depositInv_exec (op : Op) (s : Campaign) (h : DepositInv s) :
    DepositInv (exec op s).1 := by
  rcases exec_fst_cases op s with he | he
  · rw [he]; exact h
  · cases op with
    | deposit sender amount msgValue feeOk pullOk => exact depositInv_deposit he h
    | changeStateToLive sender =>
        obtain ⟨-, -, hs'⟩ := changeStateToLive_success he
        rw [hs']
        exact depositInv_congr rfl rfl rfl h
    | changeStateToRescue sender ok => exact depositInv_rescue he h
    | changeStateToEnded sender =>
        obtain ⟨-, -, hs'⟩ := changeStateToEnded_success he
        rw [hs']
        exact depositInv_congr rfl rfl rfl h
    | setAllocations sender users amounts =>
        obtain ⟨-, -, -, -, hs'⟩ := setAllocations_success he
        rw [hs']
        exact depositInv_congr rfl rfl rfl h
    | claimTokens sender transferOk =>
        obtain ⟨-, -, -, -, hs'⟩ := claimTokens_success he
        rw [hs']
        exact depositInv_congr rfl rfl rfl h
    | rescueRemainingTokens sender bal transferOk =>
        obtain ⟨-, -, -, -, hs'⟩ := rescueRemainingTokens_success he
        rw [hs']
        exact h
    | updateFeeRecipient sender newRecipient =>
        obtain ⟨-, -, hs'⟩ := updateFeeRecipient_success he
        rw [hs']
        exact depositInv_congr rfl rfl rfl h
    | withdrawEther sender bal sendOk =>
        obtain ⟨-, -, hs'⟩ := withdrawEther_success he
        rw [hs']
        exact h

theorem reachable_depositInv {s : Campaign} (h : Reachable s) : DepositInv s := by
  induction h with
  | init o f hf => exact depositInv_init o f
  | step op hs hop ih => exact depositInv_exec op _ ih

/- Rejection lemmas: the three transition operations called from an illegal
phase fail and leave the state unchanged. -/

theorem changeStateToLive_reject {s : Campaign} {sender : Nat}
    (h : s.currentState ≠ CState.Graduating) :
    (exec (Op.changeStateToLive sender) s).1 = s ∧
    (exec (Op.changeStateToLive sender) s).2.isSome = true := by
  simp only [exec, raw, changeStateToLive]
  by_cases h1 : sender ≠ s.owner
  · rw [if_pos h1]
    exact ⟨rfl, rfl⟩
  · rw [if_neg h1, if_pos h]
    exact ⟨rfl, rfl⟩

theorem changeStateToRescue_reject {s : Campaign} {sender : Nat} {ok : Nat → Bool}
    (h : s.currentState ≠ CState.Graduating) :
    (exec (Op.changeStateToRescue sender ok) s).1 = s ∧
    (exec (Op.changeStateToRescue sender ok) s).2.isSome = true := by
  simp only [exec, raw, changeStateToRescue]
  by_cases h1 : sender ≠ s.owner
  · rw [if_pos h1]
    exact ⟨rfl, rfl⟩
  · rw [if_neg h1, if_pos h]
    exact ⟨rfl, rfl⟩

theorem changeStateToEnded_reject {s : Campaign} {sender : Nat}
    (h : s.currentState ≠ CState.Live) :
    (exec (Op.changeStateToEnded sender) s).1 = s ∧
    (exec (Op.changeStateToEnded sender) s).2.isSome = true := by
  simp only [exec, raw, changeStateToEnded]
  by_cases h1 : sender ≠ s.owner
  · rw [if_pos h1]
    exact ⟨rfl, rfl⟩
  · rw [if_neg h1, if_pos h]
    exact ⟨rfl, rfl⟩

/-- C8: for every operation and every error outcome, the failing call leaves
the whole ledger state exactly as it was before the call: the transactional
semantics restores the pre-call state whenever the raw body (which may have
performed partial writes before the failing require) ends in an error. -/
theorem claim8_errors_roll_back (op : Op) (s : Campaign) (e : Err)
    (h : (exec op s).2 = some e) : (exec op s).1 = s := by
  unfold exec at h ⊢
  rcases hr : raw op s with ⟨s', e'⟩
  rw [hr] at h
  cases e'
  · exact Option.noConfusion h
  · rfl

theorem claim8_errors_roll_back_witness :
    (exec (Op.changeStateToLive 5) cState0).2 = some Err.Unauthorized ∧
    (exec (Op.changeStateToLive 5) cState0).1 = cState0 :=
  ⟨by decide,
   claim8_errors_roll_back (Op.changeStateToLive 5) cState0 Err.Unauthorized (by decide)⟩

/-- C5: in every execution the phase only changes along the transitions
Graduating to Live, Graduating to Rescue and Live to Ended (in particular it
never leaves Rescue or Ended and never regresses), and each transition
operation requested from an illegal phase is rejected with the state left
unchanged. -/
theorem claim5_state_machine :
    (∀ (op : Op) (s : Campaign),
      StateTransOK s.currentState (exec op s).1.currentState) ∧
    (∀ (s : Campaign) (sender : Nat), s.currentState ≠ CState.Graduating →
      (exec (Op.changeStateToLive sender) s).1 = s ∧
      (exec (Op.changeStateToLive sender) s).2.isSome = true) ∧
    (∀ (s : Campaign) (sender : Nat) (ok : Nat → Bool),
      s.currentState ≠ CState.Graduating →
      (exec (Op.changeStateToRescue sender ok) s).1 = s ∧
      (exec (Op.changeStateToRescue sender ok) s).2.isSome = true) ∧
    (∀ (s : Campaign) (sender : Nat), s.currentState ≠ CState.Live →
      (exec (Op.changeStateToEnded sender) s).1 = s ∧
      (exec (Op.changeStateToEnded sender) s).2.isSome = true) := by
  refine ⟨?_, fun s sender h => changeStateToLive_reject h,
    fun s sender ok h => changeStateToRescue_reject h,
    fun s sender h => changeStateToEnded_reject h⟩
  intro op s
  rcases exec_fst_cases op s with he | he
  · rw [he]
    exact Or.inl rfl
  · cases op with
    | deposit sender amount msgValue feeOk pullOk =>
        obtain ⟨-, -, -, -, hs'⟩ := deposit_success he
        rw [hs']
        exact Or.inl rfl
    | changeStateToLive sender =>
        obtain ⟨-, hg, hs'⟩ := changeStateToLive_success he
        rw [hs']
        exact Or.inr (Or.inl ⟨hg, rfl⟩)
    | changeStateToRescue sender ok =>
        obtain ⟨-, hg, dep, r, -, hs'⟩ := changeStateToRescue_success he
        rw [hs']
        exact Or.inr (Or.inr (Or.inl ⟨hg, rfl⟩))
    | changeStateToEnded sender =>
        obtain ⟨-, hl, hs'⟩ := changeStateToEnded_success he
        rw [hs']
        exact Or.inr (Or.inr (Or.inr ⟨hl, rfl⟩))
    | setAllocations sender users amounts =>
        obtain ⟨-, -, -, -, hs'⟩ := setAllocations_success he
        rw [hs']
        exact Or.inl rfl
    | claimTokens sender transferOk =>
        obtain ⟨-, -, -, -, hs'⟩ := claimTokens_success he
        rw [hs']
        exact Or.inl rfl
    | rescueRemainingTokens sender bal transferOk =>
        obtain ⟨-, -, -, -, hs'⟩ := rescueRemainingTokens_success he
        rw [hs']
        exact Or.inl rfl
    | updateFeeRecipient sender newRecipient =>
        obtain ⟨-, -, hs'⟩ := updateFeeRecipient_success he
        rw [hs']
        exact Or.inl rfl
    | withdrawEther sender bal sendOk =>
        obtain ⟨-, -, hs'⟩ := withdrawEther_success he
        rw [hs']
        exact Or.inl rfl

theorem claim5_state_machine_witness :
    StateTransOK cState0.currentState ((exec (Op.changeStateToLive 1) cState0).1).currentState ∧
    ((exec (Op.changeStateToLive 1) cStateEnded).1 = cStateEnded ∧
      (exec (Op.changeStateToLive 1) cStateEnded).2.isSome = true) ∧
    ((exec (Op.changeStateToRescue 1 (fun _ => true)) cStateEnded).1 = cStateEnded ∧
      (exec (Op.changeStateToRescue 1 (fun _ => true)) cStateEnded).2.isSome = true) ∧
    ((exec (Op.changeStateToEnded 1) cState0).1 = cState0 ∧
      (exec (Op.changeStateToEnded 1) cState0).2.isSome = true) :=
  ⟨claim5_state_machine.1 (Op.changeStateToLive 1) cState0,
   claim5_state_machine.2.1 cStateEnded 1 (by decide),
   claim5_state_machine.2.2.1 cStateEnded 1 (fun _ => true) (by decide),
   claim5_state_machine.2.2.2 cState0 1 (by decide)⟩

/-- C4: in every reachable state, totalDeposits equals the sum of all nonzero
depositedAmount values: for any finite set of identities containing every
identity with a nonzero balance, totalDeposits is the sum of the balances over
that set. -/
theorem claim4_totalDeposits_eq_sum {s : Campaign} (hs : Reachable s)
    (t : Finset Nat) (ht : ∀ a, s.deposits a ≠ 0 → a ∈ t) :
    s.totalDeposits = ∑ a ∈ t, s.deposits a := by
  obtain ⟨hmem, hsum⟩ := reachable_depositInv hs
  rw [hsum]
  exact sum_eq_of_support_subset (fun a ha => List.mem_toFinset.mpr (hmem a ha)) ht

theorem claim4_totalDeposits_eq_sum_witness :
    (cDep100.totalDeposits = ∑ a ∈ ({3} : Finset Nat), cDep100.deposits a) ∧
    cDep100.totalDeposits = 100 :=
  ⟨claim4_totalDeposits_eq_sum
      (ReachableFrom.step (Op.deposit 3 100 DEPOSIT_FEE true true)
        (ReachableFrom.init 1 2 (by decide)) trivial)
      {3}
      (fun a ha => by
        have hd : (exec (Op.deposit 3 100 DEPOSIT_FEE true true) (initCampaign 1 2)).1.deposits a =
            if a = 3 then 0 + 100 else 0 := rfl
        rw [hd] at ha
        by_cases h3 : a = 3
        · simp [h3]
        · rw [if_neg h3] at ha
          exact absurd rfl ha),
   by decide⟩

/-- C7: a successful changeStateToRescue from a reachable Graduating state
(owner caller, all refund transfers succeeding) zeroes every balance and
totalDeposits, moves the phase to Rescue, and the total of the refund
transfers it issues equals totalDeposits as it was before the call. -/
theorem claim7_rescue_spec {s : Campaign} (hs : Reachable s)
    (hst : s.currentState = CState.Graduating) :
    (exec (Op.changeStateToRescue s.owner (fun _ => true)) s).2 = none ∧
    (exec (Op.changeStateToRescue s.owner (fun _ => true)) s).1.currentState = CState.Rescue ∧
    (exec (Op.changeStateToRescue s.owner (fun _ => true)) s).1.totalDeposits = 0 ∧
    (∀ a, (exec (Op.changeStateToRescue s.owner (fun _ => true)) s).1.deposits a = 0) ∧
    rescueRefundTotal s (fun _ => true) = s.totalDeposits := by
  obtain ⟨hmem, hsum⟩ := reachable_depositInv hs
  rcases hr : rescueLoop (fun _ => true) s.depositors s.deposits 0 with ⟨dep, r, e⟩
  have he : e = none := by
    have hne := rescueLoop_noError s.depositors s.deposits 0
    rw [hr] at hne
    exact hne
  subst he
  obtain ⟨hdep, hrr⟩ := rescueLoop_complete (fun _ => true) s.depositors s.deposits 0 dep r hr
  have hexec : exec (Op.changeStateToRescue s.owner (fun _ => true)) s =
      ({ s with
          deposits := dep
          totalDeposits := 0
          currentState := CState.Rescue }, none) := by
    unfold exec
    show (match changeStateToRescue s.owner (fun _ => true) s with
      | (s', none) => (s', none)
      | (_, some e) => (s, some e)) = _
    unfold changeStateToRescue
    rw [if_neg (by simp), if_neg (by simp [hst]), hr]
  rw [hexec]
  refine ⟨rfl, rfl, rfl, ?_, ?_⟩
  · intro a
    show dep a = 0
    rw [hdep a]
    by_cases hl : a ∈ s.depositors
    · rw [if_pos hl]
    · rw [if_neg hl]
      by_contra hne
      exact hl (hmem a hne)
  · show (rescueLoop (fun _ => true) s.depositors s.deposits 0).2.1 = s.totalDeposits
    rw [hr]
    dsimp only
    rw [hrr, hsum]
    omega

theorem claim7_rescue_spec_witness :
    ((exec (Op.changeStateToRescue cDep100.owner (fun _ => true)) cDep100).2 = none ∧
      (exec (Op.changeStateToRescue cDep100.owner (fun _ => true)) cDep100).1.currentState =
        CState.Rescue ∧
      (exec (Op.changeStateToRescue cDep100.owner (fun _ => true)) cDep100).1.totalDeposits = 0 ∧
      (∀ a, (exec (Op.changeStateToRescue cDep100.owner (fun _ => true)) cDep100).1.deposits a = 0) ∧
      rescueRefundTotal cDep100 (fun _ => true) = cDep100.totalDeposits) ∧
    cDep100.totalDeposits = 100 :=
  ⟨claim7_rescue_spec
      (ReachableFrom.step (Op.deposit 3 100 DEPOSIT_FEE true true)
        (ReachableFrom.init 1 2 (by decide)) trivial)
      (by decide),
   by decide⟩

/- The running total computed by one setAllocations call. -/

theorem setAllocLoop_total :
    ∀ (users amounts : List Nat) (alloc : Nat → Nat) (t : Nat),
      users.length = amounts.length →
      (setAllocLoop users amounts alloc t).2 = t + amounts.sum := by
  intro users
  induction users with
  | nil =>
    intro amounts alloc t h
    cases amounts with
    | nil => simp [setAllocLoop]
    | cons a amts => exact absurd h (by simp)
  | cons u us ih =>
    intro amounts alloc t h
    cases amounts with
    | nil => exact absurd h (by simp)
    | cons a amts =>
      unfold setAllocLoop
      rw [ih amts _ (t + a) (by simpa using h), List.sum_cons]
      omega

/-- C1 counterexample: from a reachable Ended state with totalDeposits = 100,
the calls setAllocations([4],[100]) and then setAllocations([5],[100]) both
succeed, leaving the total of all set allocations at 200 > 100; the second
call does not fail with AllocationExceedsDeposits as the claim requires. -/
theorem claim1_cross_call_cex :
    allocCall1.2 = none ∧ allocCall2.2 = none ∧
    allocCall2.1.allocations 4 + allocCall2.1.allocations 5 = 200 ∧
    allocCall2.1.totalDeposits = 100 := by decide

/-- C1 (amended): each setAllocations call (owner, Ended, equal lengths)
checks only the sum of the amounts array passed to that call against
totalDeposits: it commits all its writes and succeeds when that per-call sum
is within totalDeposits, and fails with AllocationExceedsDeposits committing
nothing when it exceeds it; allocations committed by earlier calls are not
recounted. -/
theorem claim1_per_call_check (s : Campaign) (users amounts : List Nat)
    (hst : s.currentState = CState.Ended) (hlen : users.length = amounts.length) :
    (amounts.sum ≤ s.totalDeposits →
      exec (Op.setAllocations s.owner users amounts) s =
        ({ s with allocations := (setAllocLoop users amounts s.allocations 0).1 }, none)) ∧
    (s.totalDeposits < amounts.sum →
      exec (Op.setAllocations s.owner users amounts) s =
        (s, some Err.AllocationExceedsDeposits)) := by
  rcases hl : setAllocLoop users amounts s.allocations 0 with ⟨alloc, tot⟩
  have htot : tot = amounts.sum := by
    have h2 := setAllocLoop_total users amounts s.allocations 0 hlen
    rw [hl] at h2
    simpa using h2
  constructor
  · intro hle
    unfold exec
    show (match setAllocations s.owner users amounts s with
      | (s', none) => (s', none)
      | (_, some e) => (s, some e)) = _
    unfold setAllocations
    rw [if_neg (by simp), if_neg (by simp [hst]), if_neg (by simp [hlen]), hl]
    dsimp only
    rw [if_pos (by rw [htot]; exact hle)]
  · intro hlt
    unfold exec
    show (match setAllocations s.owner users amounts s with
      | (s', none) => (s', none)
      | (_, some e) => (s, some e)) = _
    unfold setAllocations
    rw [if_neg (by simp), if_neg (by simp [hst]), if_neg (by simp [hlen]), hl]
    dsimp only
    rw [if_neg (by rw [htot]; omega)]

theorem claim1_per_call_check_witness :
    exec (Op.setAllocations cStateEnded.owner [4] [100]) cStateEnded =
      ({ cStateEnded with
          allocations := (setAllocLoop [4] [100] cStateEnded.allocations 0).1 }, none) ∧
    exec (Op.setAllocations cStateEnded.owner [4, 5] [90, 20]) cStateEnded =
      (cStateEnded, some Err.AllocationExceedsDeposits) :=
  ⟨(claim1_per_call_check cStateEnded [4] [100] (by decide) (by decide)).1 (by decide),
   (claim1_per_call_check cStateEnded [4, 5] [90, 20] (by decide) (by decide)).2 (by decide)⟩

/-- C2 evaluated at the failing input: after deposit(amount = 0) and then
deposit(amount = 5) by the same identity 3 (both with the exact fee), the
depositor array is [3, 3]: the identity occurs twice, contradicting both the
claim and the source comment that a depositor is added only once. -/
theorem claim2_duplicate_depositor_eval :
    zeroDep2.depositors = [3, 3] ∧ ¬ zeroDep2.depositors.Nodup := by decide

/-- C3 counterexample: a deposit call with amount = 0 and the exact fee does
not fail with InvalidArgument: it succeeds, and it even mutates the ledger by
appending the caller to the depositor list. -/
theorem claim3_zero_deposit_cex :
    (exec (Op.deposit 3 0 DEPOSIT_FEE true true) cState0).2 = none ∧
    (exec (Op.deposit 3 0 DEPOSIT_FEE true true) cState0).1.depositors = [3] := by decide

/-- C3 (amended): deposit has no positivity precondition on amount: in a
deposit-legal phase a call with amount = 0, the exact fee and succeeding
transfers succeeds, leaves every balance and totalDeposits unchanged in value,
and appends the caller to the depositor list exactly when the caller's
recorded balance is zero. -/
theorem claim3_zero_deposit_spec (s : Campaign) (sender : Nat)
    (hst : s.currentState = CState.Graduating ∨ s.currentState = CState.Live) :
    (exec (Op.deposit sender 0 DEPOSIT_FEE true true) s).2 = none ∧
    (exec (Op.deposit sender 0 DEPOSIT_FEE true true) s).1.totalDeposits = s.totalDeposits ∧
    (exec (Op.deposit sender 0 DEPOSIT_FEE true true) s).1.deposits = s.deposits ∧
    (exec (Op.deposit sender 0 DEPOSIT_FEE true true) s).1.depositors =
      (if s.deposits sender = 0 then s.depositors ++ [sender] else s.depositors) := by
  have hexec : exec (Op.deposit sender 0 DEPOSIT_FEE true true) s =
      ({ s with
          depositors :=
            if s.deposits sender = 0 then s.depositors ++ [sender] else s.depositors
          deposits := fun a => if a = sender then s.deposits a + 0 else s.deposits a
          totalDeposits := s.totalDeposits + 0 }, none) := by
    unfold exec
    show (match deposit sender 0 DEPOSIT_FEE true true s with
      | (s', none) => (s', none)
      | (_, some e) => (s, some e)) = _
    unfold deposit
    rw [if_neg (by rcases hst with h | h <;> simp [h]), if_neg (by simp),
      if_neg (by simp), if_neg (by simp)]
  rw [hexec]
  refine ⟨rfl, by simp, ?_, rfl⟩
  show (fun a => if a = sender then s.deposits a + 0 else s.deposits a) = s.deposits
  funext a
  split_ifs <;> simp

theorem claim3_zero_deposit_spec_witness :
    (exec (Op.deposit 3 0 DEPOSIT_FEE true true) cState0).2 = none ∧
    (exec (Op.deposit 3 0 DEPOSIT_FEE true true) cState0).1.totalDeposits =
      cState0.totalDeposits ∧
    (exec (Op.deposit 3 0 DEPOSIT_FEE true true) cState0).1.deposits = cState0.deposits ∧
    (exec (Op.deposit 3 0 DEPOSIT_FEE true true) cState0).1.depositors =
      (if cState0.deposits 3 = 0 then cState0.depositors ++ [3] else cState0.depositors) :=
  claim3_zero_deposit_spec cState0 3 (Or.inl rfl)

/-- C6: claimTokens in the Ended phase fails with NoAllocation on a zero
allocation, fails with AlreadyClaimed on a nonzero allocation whose claimed
flag is set, and succeeds at most once per caller: a successful claim sets the
flag, and a repeated call fails with AlreadyClaimed leaving the state
unchanged. -/
theorem claim6_claimTokens_spec (s : Campaign) (sender : Nat) (tOk : Bool)
    (hst : s.currentState = CState.Ended) : ClaimTokensSpec s sender tOk := by
  refine ⟨?_, ?_, ?_⟩
  · intro h0
    simp [exec, raw, claimTokens, hst, h0]
  · intro h1 h2
    simp [exec, raw, claimTokens, hst, h1, h2]
  · intro h1 h2
    have hexec : exec (Op.claimTokens sender true) s =
        ({ s with hasClaimed := fun a => if a = sender then true else s.hasClaimed a }, none) := by
      simp [exec, raw, claimTokens, hst, h1, h2]
    refine ⟨by rw [hexec], by rw [hexec], by rw [hexec]; simp, ?_⟩
    rw [hexec]
    simp [exec, raw, claimTokens, hst, h1]

theorem claim6_claimTokens_spec_witness : ClaimTokensSpec allocCall2.1 4 false :=
  claim6_claimTokens_spec allocCall2.1 4 false (by decide)

/-- C9: setAllocations imposes no depositor-membership precondition: the owner
can assign a nonzero allocation to an identity that is not in the depositor
list, the assignment leaves the list untouched, and that identity can then
successfully claim in the Ended phase, receiving its allocation. -/
theorem claim9_non_depositor_claim (s : Campaign) (x amt : Nat)
    (hst : s.currentState = CState.Ended) (hx : x ∉ s.depositors)
    (hamt : amt ≠ 0) (hle : amt ≤ s.totalDeposits) (hcl : s.hasClaimed x = false) :
    (exec (Op.setAllocations s.owner [x] [amt]) s).2 = none ∧
    (exec (Op.setAllocations s.owner [x] [amt]) s).1.allocations x = amt ∧
    x ∉ (exec (Op.setAllocations s.owner [x] [amt]) s).1.depositors ∧
    (exec (Op.claimTokens x true) (exec (Op.setAllocations s.owner [x] [amt]) s).1).2 = none ∧
    (exec (Op.claimTokens x true)
      (exec (Op.setAllocations s.owner [x] [amt]) s).1).1.hasClaimed x = true := by
  have hexec1 : exec (Op.setAllocations s.owner [x] [amt]) s =
      ({ s with allocations := fun y => if y = x then amt else s.allocations y }, none) := by
    simp [exec, raw, setAllocations, setAllocLoop, hst, hle]
  rw [hexec1]
  refine ⟨rfl, by simp, hx, ?_, ?_⟩
  · simp [exec, raw, claimTokens, hst, hamt, hcl]
  · simp [exec, raw, claimTokens, hst, hamt, hcl]

theorem claim9_non_depositor_claim_witness :
    (exec (Op.setAllocations cStateEnded.owner [9] [40]) cStateEnded).2 = none ∧
    (exec (Op.setAllocations cStateEnded.owner [9] [40]) cStateEnded).1.allocations 9 = 40 ∧
    9 ∉ (exec (Op.setAllocations cStateEnded.owner [9] [40]) cStateEnded).1.depositors ∧
    (exec (Op.claimTokens 9 true)
      (exec (Op.setAllocations cStateEnded.owner [9] [40]) cStateEnded).1).2 = none ∧
    (exec (Op.claimTokens 9 true)
      (exec (Op.setAllocations cStateEnded.owner [9] [40]) cStateEnded).1).1.hasClaimed 9
      = true :=
  claim9_non_depositor_claim cStateEnded 9 40 (by decide) (by decide) (by decide)
    (by decide) (by decide)

/-- C10: rescueRemainingTokens computes its totalAllocated by summing
allocations only over entries of the depositor array, so allocations of
identities outside the array are excluded from it; the swept surplus is the
held balance minus that sum, and in particular the tokens backing the
unclaimed allocation of a non-depositor identity are swept to the owner. -/
theorem claim10_rescue_ignores_non_depositors (s : Campaign) (x v b : Nat)
    (hx : x ∉ s.depositors) (hst : s.currentState = CState.Ended) :
    (totalAllocatedOverDepositors
        { s with allocations := fun a => if a = x then v else s.allocations a } =
      totalAllocatedOverDepositors s) ∧
    (totalAllocatedOverDepositors s < b →
      exec (Op.rescueRemainingTokens s.owner b true) s = (s, none) ∧
      rescueSweepAmount s b = b - totalAllocatedOverDepositors s) ∧
    (s.allocations x ≠ 0 →
      exec (Op.rescueRemainingTokens s.owner
        (totalAllocatedOverDepositors s + s.allocations x) true) s = (s, none) ∧
      rescueSweepAmount s (totalAllocatedOverDepositors s + s.allocations x)
        = s.allocations x) := by
  have hmap : ∀ (l : List Nat), x ∉ l →
      l.map (fun a => if a = x then v else s.allocations a) = l.map s.allocations := by
    intro l
    induction l with
    | nil => intro _; rfl
    | cons d rest ih =>
      intro hnx
      have hdx : d ≠ x := fun he => hnx (by rw [← he]; exact List.mem_cons_self d rest)
      have hrest : x ∉ rest := fun hm => hnx (List.mem_cons_of_mem d hm)
      simp [List.map_cons, if_neg hdx, ih hrest]
  have hgen : ∀ (c : Nat), totalAllocatedOverDepositors s < c →
      exec (Op.rescueRemainingTokens s.owner c true) s = (s, none) := by
    intro c hc
    unfold exec
    show (match rescueRemainingTokens s.owner c true s with
      | (s', none) => (s', none)
      | (_, some e) => (s, some e)) = _
    unfold rescueRemainingTokens
    rw [if_neg (by simp), if_neg (by simp [hst]), if_neg (by simp [hc]),
      if_neg (by omega), if_pos rfl]
  refine ⟨?_, fun hb => ⟨hgen b hb, rfl⟩, fun halloc => ⟨hgen _ (by omega), ?_⟩⟩
  · show (s.depositors.map (fun a => if a = x then v else s.allocations a)).sum =
      totalAllocatedOverDepositors s
    rw [hmap s.depositors hx]
    rfl
  · show (totalAllocatedOverDepositors s + s.allocations x) - totalAllocatedOverDepositors s
      = s.allocations x
    omega

theorem claim10_rescue_ignores_non_depositors_witness :
    (totalAllocatedOverDepositors
        { allocCall2.1 with
            allocations := fun a => if a = 5 then 42 else allocCall2.1.allocations a } =
      totalAllocatedOverDepositors allocCall2.1) ∧
    (exec (Op.rescueRemainingTokens allocCall2.1.owner 7 true) allocCall2.1 =
        (allocCall2.1, none) ∧
      rescueSweepAmount allocCall2.1 7 = 7 - totalAllocatedOverDepositors allocCall2.1) ∧
    (exec (Op.rescueRemainingTokens allocCall2.1.owner
        (totalAllocatedOverDepositors allocCall2.1 + allocCall2.1.allocations 5) true)
        allocCall2.1 = (allocCall2.1, none) ∧
      rescueSweepAmount allocCall2.1
        (totalAllocatedOverDepositors allocCall2.1 + allocCall2.1.allocations 5)
        = allocCall2.1.allocations 5) :=
  ⟨(claim10_rescue_ignores_non_depositors allocCall2.1 5 42 7 (by decide) (by decide)).1,
   (claim10_rescue_ignores_non_depositors allocCall2.1 5 42 7 (by decide) (by decide)).2.1
     (by decide),
   (claim10_rescue_ignores_non_depositors allocCall2.1 5 42 7 (by decide) (by decide)).2.2
     (by decide)⟩

end CampaignSpec
